import Mathlib

/-!
Verification development for the financial-dashboard app (`src/app.py`).

The app manipulates pandas time series of floating-point prices.  We embed
the relevant fragment shallowly:

* a pandas `Series` of floats becomes `List (Option ℚ)` — `none` models NaN
  (a missing / undefined value), `some q` a finite numeric value;
* a rolling window with the default `min_periods = window` yields a defined
  value at position `i` exactly when `i + 1 ≥ window` and all `window`
  trailing values are defined (`rollingApplyO`);
* machine floats are modelled by exact rationals.  The two places where the
  code relies on IEEE special values (`x / 0 = ±inf`, `0 / 0 = NaN`) are
  folded into the definitions at the point where they occur (`rsiAt`,
  `pct_change`), with comments explaining the correspondence;
* square roots (Bollinger standard deviation, the Pearson denominator) are
  kept abstract: the definitions take an arbitrary `sf : ℚ → ℚ` standing
  for the floating square root, and theorems either hold for every `sf` or
  hypothesise the defining property of a square root at the points used.
-/

set_option autoImplicit false

/-- Collapses a list of optional values: `some` of the list of values when
every entry is defined, `none` as soon as one entry is `none`.  This is how
a pandas rolling window with `min_periods = window` decides definedness. -/
def allSome : List (Option ℚ) → Option (List ℚ)
  | [] => some []
  | none :: _ => none
  | some x :: rest =>
    match allSome rest with
    | some vals => some (x :: vals)
    | none => none

/-- Arithmetic mean of a list of rationals (`Series.mean`); the empty list
gives `0 / 0 = 0`, which never occurs for the windows of length ≥ 1 used. -/
def meanL (l : List ℚ) : ℚ := l.sum / l.length

/-- `series.rolling(w).apply(f)` with the pandas default
`min_periods = w`: position `i` holds `f` of the `w` trailing values
(indices `i + 1 - w` to `i`) when `i + 1 ≥ w` and all of them are defined,
and `none` otherwise.  `f` itself may be partial (used for the sample
standard deviation, which is NaN on windows of length 1). -/
def rollingApplyO (f : List ℚ → Option ℚ) (w : ℕ) (xs : List (Option ℚ)) :
    List (Option ℚ) :=
  (List.range xs.length).map (fun i =>
    if i + 1 < w then none
    else
      match allSome ((xs.drop (i + 1 - w)).take w) with
      | some vals => f vals
      | none => none)

/-- `series.rolling(w).mean()`. -/
def rollingMean (w : ℕ) (xs : List (Option ℚ)) : List (Option ℚ) :=
  rollingApplyO (fun l => some (meanL l)) w xs

/-- `series.diff()`: first entry NaN, then `x[i] - x[i-1]`, NaN when either
operand is NaN. -/
def diffL (xs : List (Option ℚ)) : List (Option ℚ) :=
  (List.range xs.length).map (fun i =>
    if i = 0 then none
    else
      match (xs.get? (i - 1)).join, (xs.get? i).join with
      | some p, some c => some (c - p)
      | _, _ => none)

/-- `delta.where(delta > 0, 0)`: keeps a value where it is `> 0` and
replaces it by `0` elsewhere.  For a NaN entry the condition `NaN > 0`
evaluates to `False`, so NaN is also replaced by `0` — the result is a
fully defined series. -/
def wherePos (xs : List (Option ℚ)) : List ℚ :=
  xs.map (fun o =>
    match o with
    | some v => if 0 < v then v else 0
    | none => 0)

/-- `-delta.where(delta < 0, 0)`: keeps a value where it is `< 0`, replaces
it by `0` elsewhere (NaN included, as in `wherePos`), then negates. -/
def whereNeg (xs : List (Option ℚ)) : List ℚ :=
  xs.map (fun o =>
    match o with
    | some v => if v < 0 then -v else 0
    | none => 0)

/-- Pointwise combination of two series by a partial binary operation;
`none` as soon as one operand is `none` (NaN propagation). -/
def zipWithO2 (f : ℚ → ℚ → Option ℚ) :
    List (Option ℚ) → List (Option ℚ) → List (Option ℚ)
  | a :: as, b :: bs =>
    (match a, b with
     | some x, some y => f x y
     | _, _ => none) :: zipWithO2 f as bs
  | _, _ => []

/-- Pointwise combination by a total binary operation (`+`, `-` on series). -/
def zipWithO (f : ℚ → ℚ → ℚ) (as bs : List (Option ℚ)) : List (Option ℚ) :=
  zipWithO2 (fun a b => some (f a b)) as bs

/-- One entry of `rsi = 100 - (100 / (1 + rs))` with `rs = gain / loss`,
for defined `gain` and `loss` values.  The float semantics of the source
are folded in: both averages are nonnegative, so when `loss = 0` and
`gain > 0`, `rs = gain / 0 = +inf` and `rsi = 100 - 100 / (1 + inf) =
100 - 0 = 100`; when `loss = 0` and `gain = 0`, `rs = 0 / 0 = NaN` and the
entry is NaN; otherwise everything is finite and exact. -/
def rsiAt (g l : ℚ) : Option ℚ :=
  if l = 0 then
    if g = 0 then none else some 100
  else some (100 - 100 / (1 + g / l))

/-- `gain = (delta.where(delta > 0, 0)).rolling(period).mean()` of
`compute_rsi` (src/app.py line 19), with `delta = series.diff()`. -/
def avgGain (series : List (Option ℚ)) (period : ℕ) : List (Option ℚ) :=
  rollingMean period ((wherePos (diffL series)).map some)

/-- `loss = (-delta.where(delta < 0, 0)).rolling(period).mean()` of
`compute_rsi` (src/app.py line 20). -/
def avgLoss (series : List (Option ℚ)) (period : ℕ) : List (Option ℚ) :=
  rollingMean period ((whereNeg (diffL series)).map some)

/-- `compute_rsi` (src/app.py lines 16–23): `rs = gain / loss`,
`rsi = 100 - (100 / (1 + rs))`, pointwise over the two rolling averages. -/
def compute_rsi (series : List (Option ℚ)) (period : ℕ) : List (Option ℚ) :=
  zipWithO2 rsiAt (avgGain series period) (avgLoss series period)

/-- Sample variance over a window (`Series.std` squares this):
pandas `rolling(w).std()` uses `ddof = 1`, so a window of length `≤ 1` has
undefined (NaN) standard deviation, and otherwise the variance is
`Σ (x - mean)² / (n - 1)`. -/
def sampleVar (l : List ℚ) : Option ℚ :=
  if l.length ≤ 1 then none
  else some ((l.map (fun x => (x - meanL l) * (x - meanL l))).sum / (l.length - 1 : ℕ))

/-- `series.rolling(window).std()` of `compute_bollinger_bands`
(src/app.py line 34).  The floating square root is kept abstract as
`sf : ℚ → ℚ` applied to the exact sample variance; every theorem below
either holds for all `sf` or hypothesises the square-root property at the
value where it is used. -/
def bollStd (sf : ℚ → ℚ) (window : ℕ) (series : List (Option ℚ)) :
    List (Option ℚ) :=
  rollingApplyO (fun l => (sampleVar l).map sf) window series

/-- `compute_bollinger_bands` (src/app.py lines 31–37): returns
`(sma, upper_band, lower_band)` with `sma = series.rolling(window).mean()`,
`std = series.rolling(window).std()`, `upper_band = sma + 2 * std`,
`lower_band = sma - 2 * std`. -/
def compute_bollinger_bands (sf : ℚ → ℚ) (series : List (Option ℚ))
    (window : ℕ) : List (Option ℚ) × List (Option ℚ) × List (Option ℚ) :=
  let sma := rollingMean window series
  let std := bollStd sf window series
  (sma, zipWithO (fun m s => m + 2 * s) sma std,
        zipWithO (fun m s => m - 2 * s) sma std)

/-- The slice of a fetched per-symbol dataframe that `add_moving_average`
touches: the `Close` column (absent when the vendor returned no such
field) and the `50-Day MA` column it may add. -/
structure PriceFrame where
  close? : Option (List ℚ)
  ma? : Option (List (Option ℚ))
deriving DecidableEq

/-- `add_moving_average` (src/app.py lines 10–14): when a `Close` column is
present, attaches `df["Close"].rolling(window=window).mean()` as the
`50-Day MA` column; otherwise returns the frame unchanged. -/
def add_moving_average (df : PriceFrame) (window : ℕ) : PriceFrame :=
  match df.close? with
  | some c => { close? := df.close?, ma? := some (rollingMean window (c.map some)) }
  | none => df

/-- A raw or flattened pandas column name.  yfinance may deliver either a
flat string or a two-level tuple pairing two strings (field and ticker, in
some order). -/
inductive ColName where
  | flat (s : List Char)
  | pair (a b : List Char)
deriving DecidableEq

/-- Checks that `pat` begins the list (`str.startswith`). -/
def startsWithL : List Char → List Char → Bool
  | [], _ => true
  | _ :: _, [] => false
  | a :: as, b :: bs => a = b && startsWithL as bs

/-- Fuel-driven body of Python `str.replace(pat, "")`: scans left to right,
removing every non-overlapping occurrence of `pat`.  One unit of fuel is
spent per step, and `fuel = s.length` suffices for every non-empty `pat`;
for `pat = []` the function returns `s` unchanged, as Python does when
replacing the empty string by the empty string. -/
def replaceAllFuel (pat : List Char) : ℕ → List Char → List Char
  | 0, s => s
  | _ + 1, [] => []
  | fuel + 1, c :: rest =>
    if startsWithL pat (c :: rest) then
      replaceAllFuel pat fuel ((c :: rest).drop pat.length)
    else c :: replaceAllFuel pat fuel rest

/-- Python `s.replace(pat, "")`. -/
def replaceAllE (pat s : List Char) : List Char :=
  replaceAllFuel pat s.length s

/-- The column flattening of `fetch_data` (src/app.py lines 106–113):
a tuple column is joined with `"_"` over its non-empty components
(`"_".join(str(x) for x in col if x)`), a flat column is kept as is. -/
def flattenCol : ColName → List Char
  | .flat s => s
  | .pair a b => if a = [] then b else if b = [] then a else a ++ '_' :: b

/-- The renaming of `fetch_data` (src/app.py lines 115–118): columns that
start with `f"{ticker}_"` have every occurrence of that pattern removed
(`col.replace(prefix, "")`); other columns are untouched. -/
def stripTicker (ticker : List Char) (c : List Char) : List Char :=
  if startsWithL (ticker ++ ['_']) c then replaceAllE (ticker ++ ['_']) c
  else c

/-- Full column normalisation of `fetch_data`: flatten, then rename. -/
def normalizeColName (ticker : List Char) (c : ColName) : List Char :=
  stripTicker ticker (flattenCol c)

/-- A raw dataframe as returned by `yf.download` after `reset_index`:
a list of rows of numbers and a list of (possibly two-level) column
names.  `df.empty` corresponds to `rows = []`. -/
structure RawF where
  rows : List (List ℚ)
  cols : List ColName
deriving DecidableEq

/-- A normalised dataframe stored in the `fetch_data` dictionary: same
rows, flattened-and-renamed column names.  (`force_1d` only reshapes
nested numeric cells, which this embedding represents as already flat; it
changes neither rows nor columns.) -/
structure NormF where
  rows : List (List ℚ)
  cols : List (List Char)
deriving DecidableEq

/-- The per-symbol body of `fetch_data`'s loop after a successful,
non-empty download: `reset_index` plus column flattening and renaming
(row-preserving). -/
def normalizeRaw (ticker : List Char) (r : RawF) : NormF :=
  ⟨r.rows, r.cols.map (normalizeColName ticker)⟩

/-- `fetch_data` (src/app.py lines 90–126).  The external provider is a
parameter `fetchOne` returning either a raw dataframe or a raised error
(`Except.error` models the exception caught by the per-symbol
`try/except`).  A failing ticker is skipped (an error is surfaced), an
empty result is skipped (a warning is surfaced), and a non-empty result is
normalised and stored under its ticker. -/
def fetch_data (fetchOne : List Char → Except (List Char) RawF) :
    List (List Char) → List (List Char × NormF)
  | [] => []
  | t :: rest =>
    match fetchOne t with
    | .ok df =>
      if df.rows = [] then fetch_data fetchOne rest
      else (t, normalizeRaw t df) :: fetch_data fetchOne rest
    | .error _ => fetch_data fetchOne rest

/-- The slice of a per-symbol dataframe that the plotting helpers read:
its `Date` column and, when present, its `Close` column (entries may be
NaN).  The two lists are aligned positionally; `df.empty` corresponds to
`dates = []`. -/
structure DF where
  dates : List ℤ
  close? : Option (List (Option ℚ))
deriving DecidableEq

/-- Looks a date up in a date-indexed series: the stored value at the
first matching date, or `none` (NaN) when the date is absent.  This is
both pandas reindexing onto a missing label and the NaN cell that an
outer `concat` inserts. -/
def lookupVal (rows : List (ℤ × Option ℚ)) (d : ℤ) : Option ℚ :=
  match rows.find? (fun r => r.1 == d) with
  | some r => r.2
  | none => none

/-- Rows of a frame sorted ascending by date (`df.sort_values("Date")`);
date values are assumed unique per symbol, so any correct sort gives the
pandas result. -/
def sortRowsByDate (rows : List (ℤ × Option ℚ)) : List (ℤ × Option ℚ) :=
  List.insertionSort (fun a b => a.1 ≤ b.1) rows

/-- Forward fill with a carried last defined value (`fillna(method="pad")`,
which `pct_change` applies before differencing by default). -/
def ffillGo (last : Option ℚ) : List (Option ℚ) → List (Option ℚ)
  | [] => []
  | none :: rest => last :: ffillGo last rest
  | some x :: rest => some x :: ffillGo (some x) rest

/-- `series.pct_change()`: after the default forward fill, entry `i > 0`
is `(x[i] - x[i-1]) / x[i-1]` when both are defined; entry `0` is NaN.  A
zero previous value would give IEEE `±inf`/NaN, which never yields a
defined correlation downstream; it is modelled as an undefined entry and
no theorem below is instantiated on zero prices. -/
def pct_change (xs : List (Option ℚ)) : List (Option ℚ) :=
  let f := ffillGo none xs
  (List.range xs.length).map (fun i =>
    if i = 0 then none
    else
      match (f.get? (i - 1)).join, (f.get? i).join with
      | some p, some c => if p = 0 then none else some ((c - p) / p)
      | _, _ => none)

/-- The per-symbol `Returns` series of `plot_correlation_heatmap`
(src/app.py lines 176–179): sort the frame by date, take
`df["Close"].pct_change()`, and index the result by date
(`df.set_index("Date")["Returns"]`). -/
def returnsSeries (df : DF) (closes : List (Option ℚ)) :
    List (ℤ × Option ℚ) :=
  let rows := sortRowsByDate (df.dates.zip closes)
  (rows.map Prod.fst).zip (pct_change (rows.map Prod.snd))

/-- A symbol contributes to the heatmap exactly when its frame is
non-empty and has a `Close` column (src/app.py lines 174–180). -/
def usableDF (df : DF) : Bool := !df.dates.isEmpty && df.close?.isSome

/-- One iteration of `plot_correlation_heatmap`'s loop: a non-empty frame
with a `Close` column contributes its named return series, any other
frame contributes nothing. -/
def returnsEntry (e : List Char × DF) :
    Option (List Char × List (ℤ × Option ℚ)) :=
  if e.2.dates.isEmpty then none
  else
    match e.2.close? with
    | some closes => some (e.1, returnsSeries e.2 closes)
    | none => none

/-- `returns_series_list` of `plot_correlation_heatmap`: one date-indexed
return series per usable symbol, in dictionary order. -/
def returnsList (data : List (List Char × DF)) :
    List (List Char × List (ℤ × Option ℚ)) :=
  data.filterMap returnsEntry

/-- Structurally recursive keep-first deduplication of a date list
(`Series.drop_duplicates`, which keeps the first occurrence). -/
def dedupDatesAux (seen : List ℤ) : List ℤ → List ℤ
  | [] => []
  | d :: rest =>
    if seen.contains d then dedupDatesAux seen rest
    else d :: dedupDatesAux (d :: seen) rest

/-- Sorted, deduplicated list of dates: the index that `pd.concat(…,
axis=1)` builds as the union of the per-series date indexes. -/
def sortedUnionDates (ds : List ℤ) : List ℤ :=
  List.insertionSort (fun a b => a ≤ b) (dedupDatesAux [] ds)

/-- The date axis of `returns_df = pd.concat(returns_series_list,
axis=1).dropna()`: dates of the union index at which every contributing
series has a defined value (`dropna` removes every row holding a NaN —
the inner join on fully defined rows). -/
def joinedDates (rss : List (List Char × List (ℤ × Option ℚ))) : List ℤ :=
  (sortedUnionDates (rss.foldr (fun rs acc => rs.2.map Prod.fst ++ acc) [])).filter
    (fun d => rss.all (fun rs => (lookupVal rs.2 d).isSome))

/-- Column of one series restricted to the joined dates; on those dates
every lookup is defined, so `filterMap` returns one value per date. -/
def colOf (rs : List (ℤ × Option ℚ)) (ds : List ℤ) : List ℚ :=
  ds.filterMap (fun d => lookupVal rs d)

/-- Unnormalised covariance sum `Σ (x - mean x)(y - mean y)` over paired
rows — the quantity pandas' `nancorr` computes for every pair of columns
(the `1/(n-1)` factors cancel between numerator and denominator of the
Pearson coefficient). -/
def covS (xs ys : List ℚ) : ℚ :=
  (List.zipWith (fun a b => (a - meanL xs) * (b - meanL ys)) xs ys).sum

/-- One Pearson entry of `returns_df.corr()`: pandas computes
`covxy / divisor` with `divisor = sqrt(covxx * covyy)` and writes NaN when
`divisor == 0`.  Both `covxx` and `covyy` are sums of squares, hence
nonnegative, so the real square root vanishes exactly on a zero radicand;
the zero test is therefore placed on the radicand and the abstract square
root `sf` is applied only on the non-zero branch. -/
def corrEntryQ (sf : ℚ → ℚ) (xs ys : List ℚ) : Option ℚ :=
  if covS xs xs * covS ys ys = 0 then none
  else some (covS xs ys / sf (covS xs xs * covS ys ys))

/-- The joined-return column of the `i`-th contributing symbol. -/
def joinedColumn (data : List (List Char × DF)) (i : ℕ) : List ℚ :=
  match (returnsList data).get? i with
  | some ri => colOf ri.2 (joinedDates (returnsList data))
  | none => []

/-- Entry `(i, j)` of `corr_matrix = returns_df.corr()` (src/app.py
line 186), indexed by position among the contributing symbols. -/
def corrMatrixOf (sf : ℚ → ℚ) (data : List (List Char × DF)) (i j : ℕ) :
    Option ℚ :=
  corrEntryQ sf (joinedColumn data i) (joinedColumn data j)

/-- `plot_correlation_heatmap` (src/app.py lines 169–202), reduced to its
data result: `None` when fewer than 2 symbols contributed a return
series, otherwise the correlation matrix that the heatmap figure and the
CSV download render.  No check on the number of joined rows is made. -/
def plot_correlation_heatmap (sf : ℚ → ℚ)
    (data : List (List Char × DF)) : Option (List (List (Option ℚ))) :=
  let rss := returnsList data
  if rss.length < 2 then none
  else
    some ((List.range rss.length).map (fun i =>
      (List.range rss.length).map (fun j => corrMatrixOf sf data i j)))

/-- Keep-first deduplication of a labelled date series: drops every later
row whose date value already occurred (`Series.drop_duplicates`), keeping
the original index label of each surviving row. -/
def dedupKeepFirstAux (seen : List ℤ) : List (ℕ × ℤ) → List (ℕ × ℤ)
  | [] => []
  | p :: rest =>
    if seen.contains p.2 then dedupKeepFirstAux seen rest
    else p :: dedupKeepFirstAux (p.2 :: seen) rest

/-- The `all_dates` series of `plot_combined_data` (src/app.py
lines 131–133), as (index label, date) pairs:
`pd.concat([df["Date"] for df in data_dict.values() if not df.empty])`
concatenates the per-symbol date columns, each carrying its own positional
index labels `0 … nᵢ-1`; `.drop_duplicates()` keeps the first occurrence
of each date together with its label; `.sort_values()` sorts by date while
the attached labels stay with their rows. -/
def allLabeledDates (data : List (List Char × DF)) : List (ℕ × ℤ) :=
  List.insertionSort (fun a b => a.2 ≤ b.2)
    (dedupKeepFirstAux []
      ((data.filter (fun e => !e.2.dates.isEmpty)).foldr
        (fun e acc => e.2.dates.enum ++ acc) []))

/-- The `Date` column of `combined_df`: the date values of `all_dates` in
sorted order — `combined_df["Date"] = all_dates` also installs the labels
of `all_dates` as the index of `combined_df`, which matters below. -/
def combined_dates (data : List (List Char × DF)) : List ℤ :=
  (allLabeledDates data).map Prod.snd

/-- Close value of a frame at a date: the stored (possibly NaN) cell when
the date is present, `none` when absent. -/
def lookupClose (df : DF) (d : ℤ) : Option ℚ :=
  match df.close? with
  | some closes => lookupVal (df.dates.zip closes) d
  | none => none

/-- One ticker column of `combined_df` (src/app.py lines 136–141).
`df.set_index("Date").reindex(all_dates).reset_index()` produces the
symbol's closes listed along the sorted union dates under a fresh
positional index `0 … n-1`; the assignment
`combined_df[ticker] = df["Close"]` then aligns that series on
`combined_df`'s index — the labels carried over from the concatenation —
so the row labelled `k` receives the reindexed close at position `k`, not
the close at the row's own date. -/
def combinedColumn (data : List (List Char × DF)) (df : DF) :
    List (Option ℚ) :=
  let lab := allLabeledDates data
  let rc := (lab.map Prod.snd).map (fun d => lookupClose df d)
  lab.map (fun p => rc.getD p.1 none)

/-- `plot_combined_data` (src/app.py lines 129–167), reduced to the data
it renders: the `Date` column and one close column per non-empty frame
with a `Close` column. -/
def plot_combined_data (data : List (List Char × DF)) :
    List ℤ × List (List Char × List (Option ℚ)) :=
  (combined_dates data,
   (data.filter (fun e => !e.2.dates.isEmpty && e.2.close?.isSome)).map
     (fun e => (e.1, combinedColumn data e.2)))

/-- The total-return guard of `plot_individual_data` (src/app.py
lines 213–220): the metric branch is taken exactly when neither the first
nor the last close is NaN (`math.isnan(start_close) or
math.isnan(end_close)` short-circuits to the warning branch). -/
def takesMetric (closes : List (Option ℚ)) : Bool :=
  (closes.head?.join).isSome && (closes.getLast?.join).isSome

/-- The metric value `((end_close - start_close) / start_close) * 100`
computed by `plot_individual_data` when the guard passes.  The guard never
inspects `start_close` for zero: with a defined zero first close the
division is still executed (in floats it produces `±inf`/NaN; the exact
model is only quoted by theorems under the precondition
`start_close ≠ 0`). -/
def totalReturnMetric (closes : List (Option ℚ)) : Option ℚ :=
  match closes.head?.join, closes.getLast?.join with
  | some s, some e => some ((e - s) / s * 100)
  | _, _ => none

/-- Twenty-five straight daily closes `1, 2, …, 25` — the concrete series
of the Bollinger scenario. -/
def closes25 : List ℚ := (List.range 25).map (fun n => (n + 1 : ℚ))

/-- Symbol A of the correlation scenario: closes `[10, 11, 12]` on dates
`d1 < d2 < d3`. -/
def dfA : DF := ⟨[1, 2, 3], some [some 10, some 11, some 12]⟩

/-- Symbol B of the correlation scenario: closes `[20, 22]` on `d1, d2`. -/
def dfB : DF := ⟨[1, 2], some [some 20, some 22]⟩

/-- The two-symbol input of the correlation scenario: the overlap leaves a
single defined return row (date `d2`). -/
def dataAB : List (List Char × DF) := [("A".toList, dfA), ("B".toList, dfB)]

/-- A symbol whose daily returns are constant (closes double every day):
its return column over any set of rows has zero variance. -/
def dfConst : DF := ⟨[1, 2, 3, 4], some [some 1, some 2, some 4, some 8]⟩

/-- A companion symbol with varying returns on the same four dates. -/
def dfVar : DF := ⟨[1, 2, 3, 4], some [some 1, some 2, some 3, some 5]⟩

/-- Two symbols with three fully-defined joined return rows, the first of
zero return variance. -/
def dataCE : List (List Char × DF) := [("A".toList, dfConst), ("B".toList, dfVar)]

/-- Two symbols with strictly varying returns on the same four dates. -/
def dfVar2 : DF := ⟨[1, 2, 3, 4], some [some 1, some 2, some 3, some 4]⟩

/-- Input for the correlation witness: both return columns over the three
joined rows have non-zero variance. -/
def dataW : List (List Char × DF) := [("A".toList, dfVar2), ("B".toList, dfVar)]

/-- Symbol with a single row at the later date `d2`. -/
def dfX : DF := ⟨[2], some [some 10]⟩

/-- Symbol with a single row at the earlier date `d1`. -/
def dfY : DF := ⟨[1], some [some 20]⟩

/-- Input on which `plot_combined_data`'s stale index labels misalign the
columns: the concatenated `all_dates` carries labels `[0, 0]`, and after
sorting both combined rows look up position 0 of each reindexed series. -/
def dataXY : List (List Char × DF) := [("A".toList, dfX), ("B".toList, dfY)]

/-- A provider for the `fetch_data` theorems: symbol `A` yields one row,
symbol `B` raises, symbol `C` yields an empty frame. -/
def fetchW : List Char → Except (List Char) RawF := fun t =>
  if t = "A".toList then .ok ⟨[[1]], [.flat "Close".toList]⟩
  else if t = "B".toList then .error "boom".toList
  else .ok ⟨[], [.flat "Close".toList]⟩

theorem allSome_map_some (l : List ℚ) : allSome (l.map some) = some l := by
  induction l with
  | nil => rfl
  | cons x rest ih => simp [allSome, ih]

theorem rollingApplyO_length (f : List ℚ → Option ℚ) (w : ℕ)
    (xs : List (Option ℚ)) : (rollingApplyO f w xs).length = xs.length := by
  simp [rollingApplyO]

theorem rollingApplyO_getElem? (f : List ℚ → Option ℚ) (w : ℕ)
    (xs : List (Option ℚ)) (i : ℕ) (h : i < xs.length) :
    (rollingApplyO f w xs)[i]? =
      some (if i + 1 < w then none
        else
          match allSome ((xs.drop (i + 1 - w)).take w) with
          | some vals => f vals
          | none => none) := by
  simp [rollingApplyO, List.getElem?_range h]

theorem rollingApplyO_getElem?_early (f : List ℚ → Option ℚ) (w : ℕ)
    (xs : List (Option ℚ)) (i : ℕ) (h : i < xs.length) (hw : i + 1 < w) :
    (rollingApplyO f w xs)[i]? = some none := by
  rw [rollingApplyO_getElem? f w xs i h, if_pos hw]

theorem rollingApplyO_map_some_getElem? (f : List ℚ → Option ℚ) (w : ℕ)
    (c : List ℚ) (i : ℕ) (h : i < c.length) (hw : w ≤ i + 1) :
    (rollingApplyO f w (c.map some))[i]? =
      some (f ((c.drop (i + 1 - w)).take w)) := by
  rw [rollingApplyO_getElem? f w _ i (by simpa using h), if_neg (by omega),
    ← List.map_drop, ← List.map_take, allSome_map_some]

theorem meanL_nonneg (l : List ℚ) (h : ∀ x ∈ l, 0 ≤ x) : 0 ≤ meanL l :=
  div_nonneg (List.sum_nonneg h) (Nat.cast_nonneg _)

theorem wherePos_nonneg (xs : List (Option ℚ)) :
    ∀ x ∈ wherePos xs, 0 ≤ x := by
  intro x hx
  simp only [wherePos, List.mem_map] at hx
  obtain ⟨o, -, rfl⟩ := hx
  match o with
  | none => exact le_refl 0
  | some v =>
    by_cases hv : 0 < v
    · simpa [hv] using hv.le
    · simp [hv]

theorem whereNeg_nonneg (xs : List (Option ℚ)) :
    ∀ x ∈ whereNeg xs, 0 ≤ x := by
  intro x hx
  simp only [whereNeg, List.mem_map] at hx
  obtain ⟨o, -, rfl⟩ := hx
  match o with
  | none => exact le_refl 0
  | some v =>
    by_cases hv : v < 0
    · simp only [hv, if_pos]
      linarith
    · simp [hv]

theorem rollingMean_map_some_nonneg (w : ℕ) (c : List ℚ)
    (hc : ∀ x ∈ c, 0 ≤ x) (i : ℕ) (g : ℚ)
    (h : (rollingMean w (c.map some))[i]? = some (some g)) : 0 ≤ g := by
  have hi : i < c.length := by
    by_contra hge
    rw [List.getElem?_eq_none (by simpa [rollingMean, rollingApplyO_length] using Nat.le_of_not_lt hge)] at h
    exact Option.noConfusion h
  by_cases hw : i + 1 < w
  · rw [rollingMean, rollingApplyO_getElem?_early _ w _ i (by simpa using hi) hw] at h
    exact absurd (Option.some.inj h) (by simp)
  · rw [rollingMean, rollingApplyO_map_some_getElem? _ w c i hi (Nat.le_of_not_lt hw)] at h
    have hx := Option.some.inj (Option.some.inj h)
    subst hx
    refine meanL_nonneg _ (fun x hx => hc x ?_)
    exact List.drop_subset _ c (List.take_subset _ _ hx)

theorem zipWithO2_getElem?_of_some (f : ℚ → ℚ → Option ℚ) :
    ∀ (as bs : List (Option ℚ)) (i : ℕ) (a b : Option ℚ),
      as[i]? = some a → bs[i]? = some b →
      (zipWithO2 f as bs)[i]? =
        some (match a, b with
          | some x, some y => f x y
          | _, _ => none)
  | [], _, _, _, _, ha, _ => by simp at ha
  | _ :: _, [], _, _, _, _, hb => by simp at hb
  | a' :: as, b' :: bs, 0, a, b, ha, hb => by
    simp only [List.getElem?_cons_zero, Option.some.injEq] at ha hb
    subst ha; subst hb
    simp [zipWithO2]
  | a' :: as, b' :: bs, i + 1, a, b, ha, hb => by
    simp only [List.getElem?_cons_succ] at ha hb
    simpa [zipWithO2] using zipWithO2_getElem?_of_some f as bs i a b ha hb

theorem zipWithO2_getElem?_inv (f : ℚ → ℚ → Option ℚ) :
    ∀ (as bs : List (Option ℚ)) (i : ℕ) (c : Option ℚ),
      (zipWithO2 f as bs)[i]? = some c →
      ∃ a b : Option ℚ, as[i]? = some a ∧ bs[i]? = some b ∧
        c = (match a, b with
          | some x, some y => f x y
          | _, _ => none)
  | [], _, _, _, hc => by simp [zipWithO2] at hc
  | _ :: _, [], _, _, hc => by simp [zipWithO2] at hc
  | a' :: as, b' :: bs, 0, c, hc => by
    refine ⟨a', b', by simp, by simp, ?_⟩
    simpa [zipWithO2] using hc.symm
  | a' :: as, b' :: bs, i + 1, c, hc => by
    simp only [zipWithO2, List.getElem?_cons_succ] at hc
    obtain ⟨a, b, ha, hb, hcc⟩ := zipWithO2_getElem?_inv f as bs i c hc
    exact ⟨a, b, by simpa using ha, by simpa using hb, hcc⟩

theorem rsiAt_mem_Icc (g l : ℚ) (hg : 0 ≤ g) (hl : 0 ≤ l) (x : ℚ)
    (h : rsiAt g l = some x) : 0 ≤ x ∧ x ≤ 100 := by
  unfold rsiAt at h
  by_cases h0 : l = 0
  · rw [if_pos h0] at h
    by_cases hg0 : g = 0
    · rw [if_pos hg0] at h
      exact Option.noConfusion h
    · rw [if_neg hg0] at h
      have hx := Option.some.inj h
      subst hx
      norm_num
  · rw [if_neg h0] at h
    have hx := Option.some.inj h
    subst hx
    have hlpos : 0 < l := lt_of_le_of_ne hl (Ne.symm h0)
    have hq : 0 ≤ g / l := div_nonneg hg hlpos.le
    have h1 : (0:ℚ) < 100 / (1 + g / l) := by positivity
    have h2 : 100 / (1 + g / l) ≤ 100 := div_le_self (by norm_num) (by linarith)
    constructor <;> linarith

theorem diffL_length (xs : List (Option ℚ)) : (diffL xs).length = xs.length := by
  simp [diffL]

theorem wherePos_length (xs : List (Option ℚ)) :
    (wherePos xs).length = xs.length := by simp [wherePos]

theorem whereNeg_length (xs : List (Option ℚ)) :
    (whereNeg xs).length = xs.length := by simp [whereNeg]

theorem avgGain_value_nonneg (series : List (Option ℚ)) (period i : ℕ)
    (g : ℚ) (h : (avgGain series period)[i]? = some (some g)) : 0 ≤ g :=
  rollingMean_map_some_nonneg period _ (wherePos_nonneg _) i g h

theorem avgLoss_value_nonneg (series : List (Option ℚ)) (period i : ℕ)
    (l : ℚ) (h : (avgLoss series period)[i]? = some (some l)) : 0 ≤ l :=
  rollingMean_map_some_nonneg period _ (whereNeg_nonneg _) i l h

/-- C3 (amended): every defined value of `compute_rsi` lies in `[0, 100]`;
when the trailing average loss is exactly zero and the average gain
positive, the RSI equals exactly 100; and the first `period - 1` rows are
undefined.  (The claim's "first `period` rows are undefined" fails: the
`where` clauses coerce the NaN first difference to 0, so the rolling
averages — and with them the RSI — can already be defined at row `period`;
see the counterexample `compute_rsi_row_period_defined`.) -/
theorem compute_rsi_props (series : List (Option ℚ)) (period i : ℕ) :
    (∀ x : ℚ, (compute_rsi series period)[i]? = some (some x) →
      0 ≤ x ∧ x ≤ 100) ∧
    (∀ g : ℚ, 0 < g →
      (avgGain series period)[i]? = some (some g) →
      (avgLoss series period)[i]? = some (some 0) →
      (compute_rsi series period)[i]? = some (some 100)) ∧
    (i + 1 < period → i < series.length →
      (compute_rsi series period)[i]? = some none) := by
  refine ⟨?_, ?_, ?_⟩
  · intro x hx
    obtain ⟨a, b, ha, hb, hc⟩ :=
      zipWithO2_getElem?_inv rsiAt (avgGain series period)
        (avgLoss series period) i (some x) hx
    match a, b, hc with
    | some g, some l0, hc =>
      exact rsiAt_mem_Icc g l0 (avgGain_value_nonneg series period i g ha)
        (avgLoss_value_nonneg series period i l0 hb) x hc.symm
  · intro g hg ha hb
    unfold compute_rsi
    rw [zipWithO2_getElem?_of_some rsiAt _ _ i (some g) (some 0) ha hb]
    simp [rsiAt, ne_of_gt hg]
  · intro hw hi
    have hlg : i < ((wherePos (diffL series)).map some).length := by
      simpa [wherePos_length, diffL_length] using hi
    have hll : i < ((whereNeg (diffL series)).map some).length := by
      simpa [whereNeg_length, diffL_length] using hi
    have ha : (avgGain series period)[i]? = some none := by
      simpa [avgGain, rollingMean] using
        rollingApplyO_getElem?_early (fun l => some (meanL l)) period _ i hlg hw
    have hb : (avgLoss series period)[i]? = some none := by
      simpa [avgLoss, rollingMean] using
        rollingApplyO_getElem?_early (fun l => some (meanL l)) period _ i hll hw
    unfold compute_rsi
    rw [zipWithO2_getElem?_of_some rsiAt _ _ i none none ha hb]

/-- C3 counterexample: with closes `[1, 2]` and `period = 2`, the RSI at
index 1 — row `period`, inside the claimed undefined "first `period`
rows" — is defined and equals 100. -/
theorem compute_rsi_row_period_defined :
    (compute_rsi [some (1:ℚ), some 2] 2)[1]? = some (some 100) := by
  with_unfolding_all decide

theorem compute_rsi_props_witness :
    (0:ℚ) < 1/2 ∧
    (avgGain [some (1:ℚ), some 2, some 3] 2)[1]? = some (some (1/2)) ∧
    (avgLoss [some (1:ℚ), some 2, some 3] 2)[1]? = some (some 0) ∧
    (compute_rsi [some (1:ℚ), some 2, some 3] 2)[1]? = some (some 100) :=
  ⟨by with_unfolding_all decide, by with_unfolding_all decide,
   by with_unfolding_all decide,
   (compute_rsi_props [some (1:ℚ), some 2, some 3] 2 1).2.1 (1/2)
     (by with_unfolding_all decide) (by with_unfolding_all decide)
     (by with_unfolding_all decide)⟩

theorem rollingMean_map_some_early (w : ℕ) (c : List ℚ) (i : ℕ)
    (hi : i < c.length) (hw : i + 1 < w) :
    (rollingMean w (c.map some))[i]? = some none :=
  rollingApplyO_getElem?_early _ w _ i (by simpa using hi) hw

theorem rollingMean_map_some_value (w : ℕ) (c : List ℚ) (i : ℕ)
    (hw : w ≤ i + 1) (hi : i < c.length) :
    (rollingMean w (c.map some))[i]? =
      some (some (((c.drop (i + 1 - w)).take w).sum / (w : ℚ))) := by
  rw [rollingMean, rollingApplyO_map_some_getElem? _ w c i hi hw]
  have hlen : ((c.drop (i + 1 - w)).take w).length = w := by
    rw [List.length_take, List.length_drop]
    omega
  simp [meanL, hlen]

/-- C5: with a `Close` column present, `add_moving_average` attaches the
rolling mean of the closes; that rolling mean (and each Bollinger output)
is undefined at every one of the first `window - 1` rows — hence entirely
undefined when the series has at most `window - 1` rows — and from row
`window` on it equals the exact arithmetic mean of the `window` trailing
closes (current row included); with no `Close` column,
`add_moving_average` is a no-op. -/
theorem add_moving_average_props (df : PriceFrame) (c : List ℚ)
    (sf : ℚ → ℚ) (series : List (Option ℚ)) (w i : ℕ) :
    (df.close? = some c →
      (add_moving_average df w).ma? = some (rollingMean w (c.map some))) ∧
    (i < c.length → i + 1 < w →
      (rollingMean w (c.map some))[i]? = some none) ∧
    (w ≤ i + 1 → i < c.length →
      (rollingMean w (c.map some))[i]? =
        some (some (((c.drop (i + 1 - w)).take w).sum / (w : ℚ)))) ∧
    (df.close? = none → add_moving_average df w = df) ∧
    (i < series.length → i + 1 < w →
      ((compute_bollinger_bands sf series w).1[i]? = some none ∧
       (compute_bollinger_bands sf series w).2.1[i]? = some none ∧
       (compute_bollinger_bands sf series w).2.2[i]? = some none)) := by
  refine ⟨?_, ?_, ?_, ?_, ?_⟩
  · intro hc
    simp [add_moving_average, hc]
  · intro hi hw
    exact rollingMean_map_some_early w c i hi hw
  · intro hw hi
    exact rollingMean_map_some_value w c i hw hi
  · intro hc
    simp [add_moving_average, hc]
  · intro hi hw
    have hsma : (rollingMean w series)[i]? = some none :=
      rollingApplyO_getElem?_early _ w series i hi hw
    have hstd : (bollStd sf w series)[i]? = some none :=
      rollingApplyO_getElem?_early _ w series i hi hw
    refine ⟨by simpa [compute_bollinger_bands] using hsma, ?_, ?_⟩
    · simpa [compute_bollinger_bands, zipWithO] using
        zipWithO2_getElem?_of_some (fun a b => some (a + 2 * b)) _ _ i none none hsma hstd
    · simpa [compute_bollinger_bands, zipWithO] using
        zipWithO2_getElem?_of_some (fun a b => some (a - 2 * b)) _ _ i none none hsma hstd

theorem add_moving_average_props_witness :
    (add_moving_average ⟨some [(1:ℚ), 2, 3], none⟩ 2).ma? =
      some (rollingMean 2 ([(1:ℚ), 2, 3].map some)) ∧
    (rollingMean 2 ([(1:ℚ), 2, 3].map some))[0]? = some none ∧
    (rollingMean 2 ([(1:ℚ), 2, 3].map some))[1]? =
      some (some ((([(1:ℚ), 2, 3].drop (1 + 1 - 2)).take 2).sum / (2:ℚ))) ∧
    add_moving_average ⟨none, none⟩ 2 = ⟨none, none⟩ ∧
    ((compute_bollinger_bands (fun q => q) [some (1:ℚ), some 2] 2).1[0]? = some none ∧
     (compute_bollinger_bands (fun q => q) [some (1:ℚ), some 2] 2).2.1[0]? = some none ∧
     (compute_bollinger_bands (fun q => q) [some (1:ℚ), some 2] 2).2.2[0]? = some none) :=
  ⟨(add_moving_average_props ⟨some [(1:ℚ), 2, 3], none⟩ [(1:ℚ), 2, 3]
      (fun q => q) [some (1:ℚ), some 2] 2 0).1 rfl,
   (add_moving_average_props ⟨some [(1:ℚ), 2, 3], none⟩ [(1:ℚ), 2, 3]
      (fun q => q) [some (1:ℚ), some 2] 2 0).2.1
      (by with_unfolding_all decide) (by with_unfolding_all decide),
   (add_moving_average_props ⟨some [(1:ℚ), 2, 3], none⟩ [(1:ℚ), 2, 3]
      (fun q => q) [some (1:ℚ), some 2] 2 1).2.2.1
      (by with_unfolding_all decide) (by with_unfolding_all decide),
   (add_moving_average_props ⟨none, none⟩ [(1:ℚ), 2, 3]
      (fun q => q) [some (1:ℚ), some 2] 2 0).2.2.2.1 rfl,
   (add_moving_average_props ⟨some [(1:ℚ), 2, 3], none⟩ [(1:ℚ), 2, 3]
      (fun q => q) [some (1:ℚ), some 2] 2 0).2.2.2.2
      (by with_unfolding_all decide) (by with_unfolding_all decide)⟩

theorem zipWithO_getElem?_some_inv (f : ℚ → ℚ → ℚ) (as bs : List (Option ℚ))
    (i : ℕ) (u : ℚ) (h : (zipWithO f as bs)[i]? = some (some u)) :
    ∃ a b : ℚ, as[i]? = some (some a) ∧ bs[i]? = some (some b) ∧ u = f a b := by
  obtain ⟨a, b, ha, hb, hc⟩ :=
    zipWithO2_getElem?_inv (fun a b => some (f a b)) as bs i (some u) h
  match a, b, hc with
  | some x, some y, hc => exact ⟨x, y, ha, hb, by simpa using hc⟩
  | none, _, hc => simp at hc
  | some _, none, hc => simp at hc

theorem rollingMean_getElem?_some (w : ℕ) (xs : List (Option ℚ)) (i : ℕ)
    (m : ℚ) (h : (rollingMean w xs)[i]? = some (some m)) :
    ∃ vals, allSome ((xs.drop (i + 1 - w)).take w) = some vals ∧
      m = meanL vals := by
  have hi : i < xs.length := by
    by_contra hge
    rw [rollingMean, List.getElem?_eq_none
      (by simpa [rollingApplyO_length] using Nat.le_of_not_lt hge)] at h
    exact Option.noConfusion h
  rw [rollingMean, rollingApplyO_getElem? _ w xs i hi] at h
  have h' := Option.some.inj h
  by_cases hw : i + 1 < w
  · rw [if_pos hw] at h'
    exact absurd h' (by simp)
  · rw [if_neg hw] at h'
    match hv : allSome ((xs.drop (i + 1 - w)).take w), h' with
    | some vals, h' => exact ⟨vals, rfl, (Option.some.inj h').symm⟩
    | none, h' => exact absurd h' (by simp)

theorem bollStd_map_some_getElem? (sf : ℚ → ℚ) (w : ℕ) (c : List ℚ) (i : ℕ)
    (hw : w ≤ i + 1) (hi : i < c.length) :
    (bollStd sf w (c.map some))[i]? =
      some ((sampleVar ((c.drop (i + 1 - w)).take w)).map sf) := by
  rw [bollStd, rollingApplyO_map_some_getElem? _ w c i hi hw]

/-- C6: wherever both Bollinger bands are defined, the mid band and the
rolling standard deviation are defined too, with
`upper - lower = 4 * std`, `upper = mid + 2 * std`,
`lower = mid - 2 * std`, and the mid band equal to the rolling mean of
the `window` trailing values; moreover over fully defined closes the
bands are defined at every row `i ≥ window` (for `window ≥ 2`) — in
particular, for 25 closes with `window = 20`, rows 20–25 are defined with
`upper - lower = 4 * std` (the witness instantiates exactly this
scenario) while rows 1–19 are undefined, the bands being built by
pointwise combination of two rolling outputs that are `none` there. -/
theorem compute_bollinger_bands_props (sf : ℚ → ℚ)
    (series : List (Option ℚ)) (w i : ℕ) :
    (∀ u l : ℚ,
      (compute_bollinger_bands sf series w).2.1[i]? = some (some u) →
      (compute_bollinger_bands sf series w).2.2[i]? = some (some l) →
      ∃ m s : ℚ,
        (compute_bollinger_bands sf series w).1[i]? = some (some m) ∧
        (bollStd sf w series)[i]? = some (some s) ∧
        u - l = 4 * s ∧ u = m + 2 * s ∧ l = m - 2 * s ∧
        ∃ vals, allSome ((series.drop (i + 1 - w)).take w) = some vals ∧
          m = meanL vals) ∧
    (∀ closes : List ℚ, series = closes.map some → 2 ≤ w → w ≤ i + 1 →
      i < closes.length →
      ∃ u l s : ℚ,
        (compute_bollinger_bands sf series w).2.1[i]? = some (some u) ∧
        (compute_bollinger_bands sf series w).2.2[i]? = some (some l) ∧
        (bollStd sf w series)[i]? = some (some s) ∧
        u - l = 4 * s) := by
  constructor
  · intro u l hu hl
    simp only [compute_bollinger_bands] at hu hl
    obtain ⟨m, s, hm, hs, hus⟩ := zipWithO_getElem?_some_inv _ _ _ i u hu
    obtain ⟨m2, s2, hm2, hs2, hls⟩ := zipWithO_getElem?_some_inv _ _ _ i l hl
    have e1 : m = m2 := Option.some.inj (Option.some.inj (hm.symm.trans hm2))
    have e2 : s = s2 := Option.some.inj (Option.some.inj (hs.symm.trans hs2))
    subst e1
    subst e2
    obtain ⟨vals, hvals, hmean⟩ := rollingMean_getElem?_some w series i m hm
    exact ⟨m, s, by simpa [compute_bollinger_bands] using hm, hs,
      by rw [hus, hls]; ring, hus, hls, vals, hvals, hmean⟩
  · intro closes hser hw2 hw hi
    subst hser
    have hwin : ((closes.drop (i + 1 - w)).take w).length = w := by
      rw [List.length_take, List.length_drop]
      omega
    obtain ⟨var, hvar⟩ :
        ∃ var, sampleVar ((closes.drop (i + 1 - w)).take w) = some var := by
      rw [sampleVar, if_neg (by omega)]
      exact ⟨_, rfl⟩
    have hm := rollingMean_map_some_value w closes i hw hi
    have hs : (bollStd sf w (closes.map some))[i]? = some (some (sf var)) := by
      rw [bollStd_map_some_getElem? sf w closes i hw hi, hvar]
      rfl
    refine ⟨((closes.drop (i + 1 - w)).take w).sum / (w : ℚ) + 2 * sf var,
      ((closes.drop (i + 1 - w)).take w).sum / (w : ℚ) - 2 * sf var,
      sf var, ?_, ?_, hs, by ring⟩
    · simp only [compute_bollinger_bands, zipWithO]
      rw [zipWithO2_getElem?_of_some _ _ _ i _ _ hm hs]
    · simp only [compute_bollinger_bands, zipWithO]
      rw [zipWithO2_getElem?_of_some _ _ _ i _ _ hm hs]

theorem compute_bollinger_bands_props_witness :
    ∃ u l s : ℚ,
      (compute_bollinger_bands (fun q => q) (closes25.map some) 20).2.1[19]? =
        some (some u) ∧
      (compute_bollinger_bands (fun q => q) (closes25.map some) 20).2.2[19]? =
        some (some l) ∧
      (bollStd (fun q => q) 20 (closes25.map some))[19]? = some (some s) ∧
      u - l = 4 * s :=
  (compute_bollinger_bands_props (fun q => q) (closes25.map some) 20 19).2
    closes25 rfl (by with_unfolding_all decide) (by with_unfolding_all decide)
    (by with_unfolding_all decide)

/-- C10: the total-return computation of `plot_individual_data` is guarded
only against NaN endpoints — the guard passes for any defined first and
last close, a zero first close included — and under the precondition that
the first close is non-zero (plus defined endpoints) the metric branch is
always taken and computes `((end - start) / start) * 100` exactly. -/
theorem total_return_guard (closes : List (Option ℚ)) (s e : ℚ)
    (hs : closes.head? = some (some s)) (he : closes.getLast? = some (some e)) :
    takesMetric closes = true ∧
    (s ≠ 0 → totalReturnMetric closes = some ((e - s) / s * 100)) := by
  constructor
  · simp [takesMetric, hs, he]
  · intro _
    simp [totalReturnMetric, hs, he]

theorem total_return_guard_witness :
    takesMetric [some (10:ℚ), some 11, some 12] = true ∧
    totalReturnMetric [some (10:ℚ), some 11, some 12] =
      some (((12:ℚ) - 10) / 10 * 100) :=
  ⟨(total_return_guard [some (10:ℚ), some 11, some 12] 10 12
      (by with_unfolding_all decide) (by with_unfolding_all decide)).1,
   (total_return_guard [some (10:ℚ), some 11, some 12] 10 12
      (by with_unfolding_all decide) (by with_unfolding_all decide)).2
      (by with_unfolding_all decide)⟩

theorem fetch_data_mem (fetchOne : List Char → Except (List Char) RawF)
    (tickers : List (List Char)) (t : List Char) (nf : NormF) :
    (t, nf) ∈ fetch_data fetchOne tickers ↔
      t ∈ tickers ∧ ∃ df : RawF, fetchOne t = .ok df ∧ df.rows ≠ [] ∧
        nf = normalizeRaw t df := by
  induction tickers with
  | nil => simp [fetch_data]
  | cons t' rest ih =>
    simp only [fetch_data]
    cases hf : fetchOne t' with
    | error msg =>
      rw [ih, List.mem_cons]
      constructor
      · rintro ⟨h1, hP⟩
        exact ⟨Or.inr h1, hP⟩
      · rintro ⟨h1 | h1, df, hdf, hrows, hnf⟩
        · subst h1
          rw [hf] at hdf
          exact Except.noConfusion hdf
        · exact ⟨h1, df, hdf, hrows, hnf⟩
    | ok df' =>
      dsimp only
      by_cases hr : df'.rows = []
      · rw [if_pos hr, ih, List.mem_cons]
        constructor
        · rintro ⟨h1, hP⟩
          exact ⟨Or.inr h1, hP⟩
        · rintro ⟨h1 | h1, df, hdf, hrows, hnf⟩
          · subst h1
            rw [hf] at hdf
            have hdd : df' = df := by injection hdf
            subst hdd
            exact absurd hr hrows
          · exact ⟨h1, df, hdf, hrows, hnf⟩
      · rw [if_neg hr, List.mem_cons, ih, List.mem_cons]
        constructor
        · rintro (hpair | ⟨h1, hP⟩)
          · have ht : t = t' := congrArg Prod.fst hpair
            have hn : nf = normalizeRaw t' df' := congrArg Prod.snd hpair
            subst ht
            exact ⟨Or.inl rfl, df', hf, hr, hn⟩
          · exact ⟨Or.inr h1, hP⟩
        · rintro ⟨h1 | h1, df, hdf, hrows, hnf⟩
          · subst h1
            rw [hf] at hdf
            have hdd : df' = df := by injection hdf
            subst hdd
            exact Or.inl (by rw [hnf])
          · exact Or.inr ⟨h1, df, hdf, hrows, hnf⟩

/-- C8: per-symbol fetch failure is recovered locally — a ticker appears
in the dictionary returned by `fetch_data` exactly when it was requested
and its own fetch succeeded with a non-empty frame, in which case it is
stored normalised; a raised error for one ticker removes only that
ticker, every other requested ticker is still fetched and processed, and
no failure escapes the function (it is total). -/
theorem fetch_data_isolation (fetchOne : List Char → Except (List Char) RawF)
    (tickers : List (List Char)) (t : List Char) (nf : NormF) :
    (t, nf) ∈ fetch_data fetchOne tickers ↔
      t ∈ tickers ∧ ∃ df : RawF, fetchOne t = .ok df ∧ df.rows ≠ [] ∧
        nf = normalizeRaw t df :=
  fetch_data_mem fetchOne tickers t nf

/-- C9: invariant of the fetched-data dictionary — every stored frame is
non-empty, because empty downloads are skipped with a warning and
normalisation preserves the rows. -/
theorem fetch_data_entries_nonempty
    (fetchOne : List Char → Except (List Char) RawF)
    (tickers : List (List Char)) (t : List Char) (nf : NormF)
    (h : (t, nf) ∈ fetch_data fetchOne tickers) : nf.rows ≠ [] := by
  obtain ⟨-, df, -, hrows, hnf⟩ := (fetch_data_mem fetchOne tickers t nf).1 h
  subst hnf
  simpa [normalizeRaw] using hrows

theorem fetch_data_entries_nonempty_witness :
    ("A".toList, NormF.mk [[(1:ℚ)]] ["Close".toList]) ∈
        fetch_data fetchW ["A".toList, "B".toList, "C".toList] ∧
    (NormF.mk [[(1:ℚ)]] ["Close".toList]).rows ≠ [] :=
  ⟨by with_unfolding_all decide,
   fetch_data_entries_nonempty fetchW ["A".toList, "B".toList, "C".toList]
     "A".toList (NormF.mk [[(1:ℚ)]] ["Close".toList])
     (by with_unfolding_all decide)⟩

/-- C2 (code bug): for requested symbol `SPY` and the two-level column
`('Close', 'SPY')` — the tuple shape shown in the code's own comment —
flattening yields `"Close_SPY"`, and the rename, which strips the leading
pattern `"SPY_"`, never fires, so the column is NOT collapsed to
`"Close"`; the collapse happens only when the ticker is the first tuple
component (`('SPY', 'Close') → "SPY_Close" → "Close"`). -/
theorem normalize_field_ticker_column :
    normalizeColName "SPY".toList (.pair "Close".toList "SPY".toList) =
      "Close_SPY".toList ∧
    "Close_SPY".toList ≠ "Close".toList ∧
    normalizeColName "SPY".toList (.pair "SPY".toList "Close".toList) =
      "Close".toList := by
  with_unfolding_all decide

theorem returnsEntry_isSome (e : List Char × DF) :
    (returnsEntry e).isSome = usableDF e.2 := by
  rcases e with ⟨name, dates, close?⟩
  by_cases hd : dates.isEmpty
  · simp [returnsEntry, usableDF, hd]
  · cases close? with
    | none => simp [returnsEntry, usableDF, hd]
    | some closes => simp [returnsEntry, usableDF, hd]

theorem returnsList_length (data : List (List Char × DF)) :
    (returnsList data).length =
      (data.filter (fun e => usableDF e.2)).length := by
  induction data with
  | nil => rfl
  | cons e rest ih =>
    rw [returnsList, List.filterMap_cons, List.filter_cons,
      ← returnsEntry_isSome e]
    cases he : returnsEntry e with
    | none => simpa [returnsList] using ih
    | some b => simpa [returnsList] using ih

/-- C1 (amended): `plot_correlation_heatmap` returns `None` exactly when
fewer than 2 symbols contribute a return series — i.e. have a non-empty
frame with a `Close` column.  The claim's second disjunct fails: the code
never checks how many rows survive the inner join, so with fewer than 2
overlapping return rows it still returns a heatmap (whose entries are all
NaN); see the counterexample. -/
theorem plot_correlation_heatmap_none_iff (sf : ℚ → ℚ)
    (data : List (List Char × DF)) :
    plot_correlation_heatmap sf data = none ↔
      (data.filter (fun e => usableDF e.2)).length < 2 := by
  unfold plot_correlation_heatmap
  rw [← returnsList_length]
  by_cases h : (returnsList data).length < 2
  · simp [h]
  · simp [h]

/-- C1 counterexample: with A's closes `[10, 11, 12]` on `d1..d3` and B's
`[20, 22]` on `d1, d2`, exactly one joined return row remains (`d2`), yet
the function returns a heatmap matrix rather than `None`. -/
theorem plot_correlation_heatmap_AB_not_none :
    (joinedDates (returnsList dataAB)).length = 1 ∧
    plot_correlation_heatmap (fun q => q) dataAB ≠ none := by
  with_unfolding_all decide

theorem covS_comm (xs ys : List ℚ) : covS xs ys = covS ys xs := by
  unfold covS
  have hf : (fun b a => (a - meanL xs) * (b - meanL ys)) =
      (fun b a => (b - meanL ys) * (a - meanL xs)) := by
    funext b a
    ring
  rw [List.zipWith_comm, hf]

theorem corrEntryQ_comm (sf : ℚ → ℚ) (xs ys : List ℚ) :
    corrEntryQ sf xs ys = corrEntryQ sf ys xs := by
  unfold corrEntryQ
  rw [covS_comm xs ys, mul_comm (covS xs xs) (covS ys ys)]

/-- C7 (amended): whenever the heatmap matrix is produced it is symmetric
(`matrix[i][j] = matrix[j][i]` for every pair of included symbols, for
any square-root function), and a diagonal entry equals exactly 1 when the
symbol's joined return column has non-zero variance (sum of squared
deviations ≠ 0) and the square root behaves as one at that value.  The
claim's "≥ 2 valid return rows" premise is insufficient: with two or more
joined rows of constant returns the variance is zero, pandas' divisor
vanishes and the diagonal entry is NaN, not 1 — see the
counterexample. -/
theorem corrMatrix_symm_diag (sf : ℚ → ℚ) (data : List (List Char × DF))
    (i j : ℕ) :
    corrMatrixOf sf data i j = corrMatrixOf sf data j i ∧
    (covS (joinedColumn data i) (joinedColumn data i) ≠ 0 →
      sf (covS (joinedColumn data i) (joinedColumn data i) *
          covS (joinedColumn data i) (joinedColumn data i)) =
        covS (joinedColumn data i) (joinedColumn data i) →
      corrMatrixOf sf data i i = some 1) := by
  constructor
  · exact corrEntryQ_comm sf _ _
  · intro hv hsf
    unfold corrMatrixOf corrEntryQ
    rw [if_neg (by simpa [mul_self_eq_zero] using hv), hsf, div_self hv]

theorem corrMatrix_symm_diag_witness :
    corrMatrixOf (fun _ => (13:ℚ)/54) dataW 0 1 =
        corrMatrixOf (fun _ => (13:ℚ)/54) dataW 1 0 ∧
    corrMatrixOf (fun _ => (13:ℚ)/54) dataW 0 0 = some 1 :=
  ⟨(corrMatrix_symm_diag (fun _ => (13:ℚ)/54) dataW 0 1).1,
   (corrMatrix_symm_diag (fun _ => (13:ℚ)/54) dataW 0 1).2
     (by with_unfolding_all decide) (by with_unfolding_all decide)⟩

/-- C7 counterexample: in `dataCE` the first symbol has three valid return
rows in the joined table (well above 2), yet its diagonal entry is NaN:
its returns are constant, the variance is zero, and pandas' `nancorr`
writes NaN whenever the divisor vanishes.  The heatmap is still
produced. -/
theorem corrMatrix_diag_nan :
    2 ≤ (joinedDates (returnsList dataCE)).length ∧
    corrMatrixOf (fun q => q) dataCE 0 0 = none ∧
    plot_correlation_heatmap (fun q => q) dataCE ≠ none := by
  with_unfolding_all decide

/-- C4 (code bug): on `dataXY` — A holding close 10 at the later date d2,
B holding close 20 at the earlier date d1 — the combined date column is
the correct sorted union `[d1, d2]` and A's close at d2 is 10, but the
emitted A column is `[NaN, NaN]` (and B's column repeats 20 at both
dates): `combined_df[ticker] = df["Close"]` aligns the freshly reindexed
series on `combined_df`'s index, which still carries the positional
labels `[0, 0]` inherited from the concatenated `all_dates`, so every row
reads position 0 instead of its own date.  The claim's required value —
A's close 10 surfacing at d2, absence only at d1 — does not hold. -/
theorem plot_combined_data_misaligned :
    (plot_combined_data dataXY).1 = [1, 2] ∧
    lookupClose dfX 2 = some 10 ∧
    (plot_combined_data dataXY).2 =
      [("A".toList, [none, none]), ("B".toList, [some 20, some 20])] := by
  with_unfolding_all decide
